import Mathlib

/-!
Verification of the JINDER job-application tracker's core slice: the
job-record data model and its CRUD/query API. Two route variants of the
repository are embedded:

* the in-memory Express router (`src/unnamed/part_002`), which keeps a
  mutable `jobs` array and an auto-increment `nextId`, embedded below with
  the prefix `Mem`;
* the Mongoose-backed router (`src/backend/routes/jobs.js` together with
  the schema of `src/backend/models/Job.js`), embedded with the prefix `B`,
  where the document store is modelled as a list of records and Mongo
  query operators (`$regex` with `i`, `skip`, `limit`, `sort`,
  `countDocuments`) are given their list semantics.

JavaScript strings become `String`, dates become `Nat` timestamps, and
JavaScript truthiness of an optional string (absent or `""` is falsy) is
made explicit.  Handlers are pure functions from server state and request
to a response/state pair.
-/

/-- A record of the in-memory variant (`src/unnamed/part_002`): a job
posting with `title`, `company`, `location`, `description`, optional
`salary`, `requirements` list, `type` and timestamps. -/
structure MemJob where
  id : Nat
  title : String
  company : String
  location : String
  description : String
  salary : Option String
  requirements : List String
  jobType : String
  createdAt : Nat
  updatedAt : Nat
deriving Repr, DecidableEq

/-- A request body as the in-memory routes destructure it.  Fields the
client may or may not send are `Option`s; `id` and `createdAt` can be
present in the body but the handlers never read them (the JS destructuring
picks only the seven data fields). -/
structure MemBody where
  title : Option String
  company : Option String
  location : Option String
  description : Option String
  salary : Option String
  requirements : Option (List String)
  jobType : Option String
  bodyId : Option Nat
  bodyCreatedAt : Option Nat
deriving Repr, DecidableEq

/-- JavaScript truthiness of an optional string value: `undefined` and the
empty string are falsy. -/
def strTruthy : Option String → Bool
  | none => false
  | some s => !(s == "")

/-- `job || default` for an optional string, as in `salary || null`. -/
def jsOrNull (v : Option String) : Option String :=
  match v with
  | none => none
  | some s => if s == "" then none else some s

/-- `v || d` for an optional string with a string default, as in
`type || 'full-time'`. -/
def jsOrDefault (v : Option String) (d : String) : String :=
  match v with
  | none => d
  | some s => if s == "" then d else s

/-- Field lookup used by `validateJobData`'s missing-field scan. -/
def fieldOf (b : MemBody) : String → Option String
  | "title" => b.title
  | "company" => b.company
  | "location" => b.location
  | "description" => b.description
  | _ => none

/-- The `requiredFields` array of `validateJobData`. -/
def requiredFields : List String := ["title", "company", "location", "description"]

/-- The fields `validateJobData` reports missing:
`requiredFields.filter(field => !req.body[field])`. -/
def missingOf (b : MemBody) : List String :=
  requiredFields.filter (fun f => !(strTruthy (fieldOf b f)))

/-- Validation outcome of the in-memory `validateJobData` middleware:
either the list of all missing required fields, or the single field named
by the first length-bound violation encountered. -/
inductive MemValErr where
  | missingFields : List String → MemValErr
  | badField : String → MemValErr
deriving Repr, DecidableEq

/-- The field names a validation error mentions. -/
def errNames : Option MemValErr → List String
  | none => []
  | some (.missingFields fs) => fs
  | some (.badField f) => [f]

/-- `validateJobData` of `src/unnamed/part_002`: first the missing-field
scan (reporting every missing field at once), then the four length checks
in sequence, each returning immediately on its first violation. -/
def validateJobData (b : MemBody) : Option MemValErr :=
  let missing := missingOf b
  if missing.isEmpty then
    let t := b.title.getD ""
    let c := b.company.getD ""
    let l := b.location.getD ""
    let d := b.description.getD ""
    if t.length < 3 || t.length > 100 then some (.badField "title")
    else if c.length < 2 || c.length > 50 then some (.badField "company")
    else if l.length < 3 || l.length > 100 then some (.badField "location")
    else if d.length < 10 || d.length > 1000 then some (.badField "description")
    else none
  else some (.missingFields missing)

/-- Character-list check: `pat` occurs at the head of `hay`. -/
def chHeadMatch : List Char → List Char → Bool
  | [], _ => true
  | _ :: _, [] => false
  | a :: as, b :: bs => a == b && chHeadMatch as bs

/-- Character-list check: `pat` occurs somewhere inside `hay`
(the semantics of JS `String.prototype.includes`). -/
def chHasSub (hay pat : List Char) : Bool :=
  match hay with
  | [] => pat.isEmpty
  | _ :: t => chHeadMatch pat hay || chHasSub t pat

/-- `hay.toLowerCase().includes(pat.toLowerCase())`: case-insensitive
substring containment, used by the company/location filters. -/
def containsCI (hay pat : String) : Bool :=
  chHasSub (hay.data.map Char.toLower) (pat.data.map Char.toLower)

/-- Query parameters of `GET /api/jobs` in the in-memory variant, after
the transport layer has parsed them; `page`/`limit` default to 1/10
upstream and are carried here as plain numbers. -/
structure MemQuery where
  company : Option String
  location : Option String
  jobType : Option String
  page : Nat
  limit : Nat
deriving Repr, DecidableEq

/-- The filter cascade of the in-memory list handler: company and
location filter by case-insensitive substring, type by exact equality;
each filter applies only when its parameter is truthy. -/
def filteredJobs (jobs : List MemJob) (q : MemQuery) : List MemJob :=
  let f1 := match q.company with
    | none => jobs
    | some c => if c == "" then jobs else jobs.filter (fun j => containsCI j.company c)
  let f2 := match q.location with
    | none => f1
    | some c => if c == "" then f1 else f1.filter (fun j => containsCI j.location c)
  match q.jobType with
  | none => f2
  | some t => if t == "" then f2 else f2.filter (fun j => j.jobType == t)

/-- The response shape of the in-memory list handler: the page slice plus
the `meta` object. -/
structure MemListResult where
  data : List MemJob
  total : Nat
  page : Nat
  limit : Nat
  totalPages : Nat
deriving Repr, DecidableEq

/-- `Math.ceil(n / l)` on naturals. -/
def ceilDiv (n l : Nat) : Nat := (n + l - 1) / l

/-- The in-memory `GET /api/jobs` handler: filters, slices
`[(page-1)*limit, (page-1)*limit + limit)` and reports metadata. -/
def memList (jobs : List MemJob) (q : MemQuery) : MemListResult :=
  let fj := filteredJobs jobs q
  { data := (fj.drop ((q.page - 1) * q.limit)).take q.limit
    total := fj.length
    page := q.page
    limit := q.limit
    totalPages := ceilDiv fj.length q.limit }

/-- Server state of the in-memory variant: the `jobs` array and the
auto-increment counter `nextId`. -/
structure MemState where
  jobs : List MemJob
  nextId : Nat
deriving Repr, DecidableEq

/-- Responses of the in-memory routes, keeping the success discriminant
and the payloads the claims look at. -/
inductive MemResponse where
  | listOk : MemListResult → MemResponse
  | jobOk : Nat → MemJob → MemResponse
  | deleteOk : Nat → String → MemResponse
  | validationErr : MemValErr → MemResponse
  | notFound : Nat → MemResponse
deriving Repr, DecidableEq

/-- The `success` flag of the uniform response envelope. -/
def MemResponse.success : MemResponse → Bool
  | .listOk _ => true
  | .jobOk _ _ => true
  | .deleteOk _ _ => true
  | .validationErr _ => false
  | .notFound _ => false

/-- `jobs.find(job => job.id === jobId)`. -/
def findJobById (jobs : List MemJob) (id : Nat) : Option MemJob :=
  jobs.find? (fun j => j.id == id)

/-- Replace the first record matching `p` (the JS `findIndex` +
assignment idiom of the PUT handler). -/
def replaceFirst (p : MemJob → Bool) (nj : MemJob) : List MemJob → List MemJob
  | [] => []
  | j :: t => if p j then nj :: t else j :: replaceFirst p nj t

/-- Remove the first record matching `p` (the JS `findIndex` + `splice`
idiom of the DELETE handler). -/
def removeFirst (p : MemJob → Bool) : List MemJob → List MemJob
  | [] => []
  | j :: t => if p j then t else j :: removeFirst p t

/-- Drop leading whitespace characters. -/
def dropLeadingWs : List Char → List Char
  | [] => []
  | c :: t => if c.isWhitespace then dropLeadingWs t else c :: t

/-- JS `String.prototype.trim`: remove whitespace from both ends
(written over the character list so that it evaluates by reduction). -/
def jsTrim (s : String) : String :=
  ⟨(dropLeadingWs (dropLeadingWs s.data).reverse).reverse⟩

/-- Build the stored record from a validated body, as the POST handler
does: string fields trimmed, `salary || null`, `requirements || []`,
`type || 'full-time'`. -/
def mkMemJob (b : MemBody) (id now : Nat) : MemJob :=
  { id := id
    title := jsTrim (b.title.getD "")
    company := jsTrim (b.company.getD "")
    location := jsTrim (b.location.getD "")
    description := jsTrim (b.description.getD "")
    salary := jsOrNull b.salary
    requirements := b.requirements.getD []
    jobType := jsOrDefault b.jobType "full-time"
    createdAt := now
    updatedAt := now }

/-- `POST /api/jobs` of the in-memory variant: validation middleware,
then push the new record and bump `nextId`. -/
def memCreate (s : MemState) (b : MemBody) (now : Nat) : MemResponse × MemState :=
  match validateJobData b with
  | some e => (.validationErr e, s)
  | none =>
    let nj := mkMemJob b s.nextId now
    (.jobOk 201 nj, { jobs := s.jobs ++ [nj], nextId := s.nextId + 1 })

/-- `PUT /api/jobs/:id` of the in-memory variant: validation middleware,
404 when the id is absent, otherwise a full replacement that keeps the
original `id` and `createdAt`. -/
def memPut (s : MemState) (id : Nat) (b : MemBody) (now : Nat) :
    MemResponse × MemState :=
  match validateJobData b with
  | some e => (.validationErr e, s)
  | none =>
    match findJobById s.jobs id with
    | none => (.notFound id, s)
    | some old =>
      let nj : MemJob := { mkMemJob b id now with createdAt := old.createdAt }
      (.jobOk 200 nj, { s with jobs := replaceFirst (fun j => j.id == id) nj s.jobs })

/-- `DELETE /api/jobs/:id` of the in-memory variant. -/
def memDelete (s : MemState) (id : Nat) : MemResponse × MemState :=
  match findJobById s.jobs id with
  | none => (.notFound id, s)
  | some j =>
    (.deleteOk j.id j.title, { s with jobs := removeFirst (fun j => j.id == id) s.jobs })

/-- `GET /api/jobs/:id` of the in-memory variant. -/
def memGet (s : MemState) (id : Nat) : MemResponse × MemState :=
  match findJobById s.jobs id with
  | none => (.notFound id, s)
  | some j => (.jobOk 200 j, s)

/-- A parsed request to the in-memory router. -/
inductive MemRequest where
  | list : MemQuery → MemRequest
  | getOne : Nat → MemRequest
  | create : MemBody → Nat → MemRequest
  | put : Nat → MemBody → Nat → MemRequest
  | delete : Nat → MemRequest

/-- One request/response step of the in-memory API. -/
def memStep : MemRequest → MemState → MemResponse × MemState
  | .list q, s => (.listOk (memList s.jobs q), s)
  | .getOne id, s => memGet s id
  | .create b now, s => memCreate s b now
  | .put id b now, s => memPut s id b now
  | .delete id, s => memDelete s id

/-- A document of the Mongoose-backed variant (`src/backend/models/Job.js`
schema plus the `userId` the routes attach): status constrained by the
model enum, timestamps managed by the `timestamps: true` option. -/
structure BJob where
  id : Nat
  userId : String
  title : String
  company : String
  location : String
  description : String
  status : String
  salary : Option String
  applicationDate : Nat
  notes : String
  jobUrl : String
  createdAt : Nat
  updatedAt : Nat
deriving Repr, DecidableEq

/-- The status values the route validator accepts
(`jobValidationRules` / `updateJobValidationRules` / `queryValidationRules`
in `src/backend/routes/jobs.js`). -/
def bRouteStatuses : List String :=
  ["applied", "interview", "offer", "rejected", "withdrawn"]

/-- The status enum of the Mongoose schema in
`src/backend/models/Job.js`. -/
def bModelStatuses : List String :=
  ["applied", "interviewing", "offer", "rejected", "withdrawn"]

/-- The sort-field allow-list of `queryValidationRules`. -/
def bSortFields : List String :=
  ["createdAt", "applicationDate", "title", "company", "salary"]

/-- Query parameters of the backend `GET /api/jobs`, as parsed by the
transport layer; absent parameters are `none`. -/
structure BQuery where
  page : Option Nat
  limit : Option Nat
  status : Option String
  company : Option String
  location : Option String
  search : Option String
  sortBy : Option String
  sortOrder : Option String
deriving Repr, DecidableEq

/-- `queryValidationRules` of `src/backend/routes/jobs.js`: each present
parameter must satisfy its rule; in particular `limit` must lie between 1
and 100 — an over-large limit is rejected, not clamped. -/
def bValidateQuery (q : BQuery) : Bool :=
  (match q.page with | none => true | some p => decide (1 ≤ p)) &&
  (match q.limit with | none => true | some l => decide (1 ≤ l) && decide (l ≤ 100)) &&
  (match q.status with | none => true | some s => bRouteStatuses.contains s) &&
  (match q.company with | none => true | some c => decide (1 ≤ c.length) && decide (c.length ≤ 100)) &&
  (match q.location with | none => true | some c => decide (1 ≤ c.length) && decide (c.length ≤ 100)) &&
  (match q.sortBy with | none => true | some f => bSortFields.contains f) &&
  (match q.sortOrder with | none => true | some o => o == "asc" || o == "desc")

/-- The Mongo filter the backend list handler builds, evaluated on one
document: owner scope always, then exact `status`, then the
`$regex`/option-`i` clauses on `company`/`location` and the OR-ed
`search` across title/company/description.  Each clause applies only
when its parameter is truthy.  The `$regex` clauses are modelled as
case-insensitive substring containment, which agrees with Mongo exactly
when the user-supplied pattern is free of regex metacharacters; for
metacharacter patterns Mongo matches differently (or errors), so no
theorem below relies on these clauses beyond the fact that they select a
subset — the substring semantics of the company filter is settled on the
in-memory variant, whose `includes` is literal. -/
def bMatches (userId : String) (q : BQuery) (j : BJob) : Bool :=
  j.userId == userId &&
  (match q.status with
    | none => true
    | some s => if s == "" then true else j.status == s) &&
  (match q.company with
    | none => true
    | some c => if c == "" then true else containsCI j.company c) &&
  (match q.location with
    | none => true
    | some c => if c == "" then true else containsCI j.location c) &&
  (match q.search with
    | none => true
    | some t =>
      if t == "" then true
      else containsCI j.title t || containsCI j.company t || containsCI j.description t)

/-- Insert into a list sorted by `le` (used to give `Job.find().sort()`
its list semantics). -/
def insertLe (le : BJob → BJob → Bool) (a : BJob) : List BJob → List BJob
  | [] => [a]
  | b :: t => if le a b then a :: b :: t else b :: insertLe le a t

/-- Insertion sort by `le`. -/
def sortLe (le : BJob → BJob → Bool) : List BJob → List BJob
  | [] => []
  | a :: t => insertLe le a (sortLe le t)

/-- The comparator derived from `sort[sortBy] = sortOrder === 'desc' ? -1 : 1`:
numeric fields compare as numbers, string fields lexicographically,
direction flipped for `desc`. -/
def bLe (sortBy sortOrder : String) (a b : BJob) : Bool :=
  let dirNat : Nat → Nat → Bool := fun x y =>
    if sortOrder == "desc" then decide (y ≤ x) else decide (x ≤ y)
  let dirStr : String → String → Bool := fun x y =>
    if sortOrder == "desc" then decide (y ≤ x) else decide (x ≤ y)
  match sortBy with
  | "applicationDate" => dirNat a.applicationDate b.applicationDate
  | "title" => dirStr a.title b.title
  | "company" => dirStr a.company b.company
  | "salary" => dirStr (a.salary.getD "") (b.salary.getD "")
  | _ => dirNat a.createdAt b.createdAt

/-- The pagination metadata object of the backend list response. -/
structure BListResult where
  jobs : List BJob
  currentPage : Nat
  totalPages : Nat
  totalJobs : Nat
  hasNextPage : Bool
  hasPrevPage : Bool
  limit : Nat
deriving Repr, DecidableEq

/-- The backend `GET /api/jobs` handler over a document store `store`:
defaults `page = 1`, `limit = 10`, `sortBy = 'createdAt'`,
`sortOrder = 'desc'`; `Job.find(filter).sort(sort).skip((p-1)*l).limit(l)`
and `Job.countDocuments(filter)` on the list model. -/
def bList (store : List BJob) (userId : String) (q : BQuery) : BListResult :=
  let p := q.page.getD 1
  let l := q.limit.getD 10
  let sb := q.sortBy.getD "createdAt"
  let so := q.sortOrder.getD "desc"
  let matched := store.filter (bMatches userId q)
  let sorted := sortLe (bLe sb so) matched
  { jobs := (sorted.drop ((p - 1) * l)).take l
    currentPage := p
    totalPages := ceilDiv matched.length l
    totalJobs := matched.length
    hasNextPage := decide (p < ceilDiv matched.length l)
    hasPrevPage := decide (1 < p)
    limit := l }

/-- A creation body for the backend `POST /api/jobs` as the validator
sees it. -/
structure BBody where
  title : String
  company : String
  location : Option String
  salary : Option String
  description : Option String
  status : Option String
  applicationDate : Option Nat
  notes : Option String
  jobUrl : Option String
deriving Repr, DecidableEq

/-- validator.js `isNumeric` (default options), the rule behind the
route's `salary` check: `[+-]?([0-9]*[.])?[0-9]+` — an optional sign,
optional integer part, optional decimal point, at least one digit. -/
def isNumericChars (l : List Char) : Bool :=
  match l.dropWhile Char.isDigit with
  | [] => !(l.isEmpty)
  | '.' :: rest => !(rest.isEmpty) && rest.all Char.isDigit
  | _ => false

/-- The sign case of validator.js `isNumeric`. -/
def isNumericStr (s : String) : Bool :=
  match s.data with
  | '+' :: t => isNumericChars t
  | '-' :: t => isNumericChars t
  | t => isNumericChars t

/-- Modelled essentials of validator.js `isURL` (the external predicate
behind the route's `jobUrl` rule): non-empty, no whitespace, and after an
optional `http://`/`https://` scheme a non-empty host that contains a
dot.  The claims below never exercise this clause (their inputs omit
`jobUrl`); it is present so that bodies with a `jobUrl` are not
vacuously accepted. -/
def stripScheme : List Char → List Char
  | 'h' :: 't' :: 't' :: 'p' :: ':' :: '/' :: '/' :: t => t
  | 'h' :: 't' :: 't' :: 'p' :: 's' :: ':' :: '/' :: '/' :: t => t
  | t => t

/-- See `stripScheme`: the modelled `isURL` predicate itself. -/
def isUrlStr (s : String) : Bool :=
  !(s == "") && s.data.all (fun c => !(c.isWhitespace)) &&
  (let host := stripScheme s.data
   !(host.isEmpty) && host.contains '.')

/-- `jobValidationRules` of the backend routes: required `title`
(2–200 chars) and `company` (2–100 chars), bounded optional text fields,
`status` drawn from the route enumeration when present, numeric `salary`
and URL-shaped `jobUrl` when present.  The `applicationDate` rule is only
`isISO8601` — a well-formed date of any value, past or future, passes. -/
def bValidateBody (b : BBody) : Bool :=
  !(b.title == "") && decide (2 ≤ b.title.length) && decide (b.title.length ≤ 200) &&
  !(b.company == "") && decide (2 ≤ b.company.length) && decide (b.company.length ≤ 100) &&
  (match b.location with | none => true | some s => decide (s.length ≤ 100)) &&
  (match b.salary with | none => true | some s => isNumericStr s) &&
  (match b.description with | none => true | some s => decide (s.length ≤ 2000)) &&
  (match b.status with | none => true | some s => bRouteStatuses.contains s) &&
  (match b.notes with | none => true | some s => decide (s.length ≤ 1000)) &&
  (match b.jobUrl with | none => true | some u => isUrlStr u)

/-- Outcomes of the backend create pipeline. -/
inductive BCreateResult where
  | created : BJob → List BJob → BCreateResult
  | validationErr : BCreateResult
  | serverErr : BCreateResult
deriving Repr, DecidableEq

/-- The backend `POST /api/jobs` pipeline: `handleValidationErrors`
rejects with 400 when a rule fails; the handler then defaults
`applicationDate` to now and `status` to `'applied'` when falsy, and
`job.save()` enforces the Mongoose schema of `src/backend/models/Job.js`:
`trim: true` setters on the string paths, `required: true` on `title`,
`company` and `location` (failing on a missing or
whitespace-only value), and the status enum — any schema violation makes
`save` throw, which the route answers with 500 and nothing persisted. -/
def bCreate (store : List BJob) (userId : String) (b : BBody)
    (now freshId : Nat) : BCreateResult :=
  if !(bValidateBody b) then .validationErr
  else
    let title := jsTrim b.title
    let company := jsTrim b.company
    let location := jsTrim (b.location.getD "")
    let status := jsOrDefault b.status "applied"
    if !(title == "") && !(company == "") && !(location == "") &&
        bModelStatuses.contains status then
      let j : BJob :=
        { id := freshId
          userId := userId
          title := title
          company := company
          location := location
          description := jsTrim (b.description.getD "")
          status := status
          salary := b.salary.map jsTrim
          applicationDate := b.applicationDate.getD now
          notes := jsTrim (b.notes.getD "")
          jobUrl := jsTrim (b.jobUrl.getD "")
          createdAt := now
          updatedAt := now }
      .created j (store ++ [j])
    else .serverErr

/-- The client-side application-date rule of
`src/frontend/src/components/JobForm.jsx`: the selected date must not lie
after today. -/
def jobFormDateOk (selected today : Nat) : Bool :=
  !(decide (today < selected))

lemma find?_replaceFirst (p : MemJob → Bool) (nj : MemJob) (hnj : p nj = true) :
    ∀ l : List MemJob, (l.find? p).isSome →
      (replaceFirst p nj l).find? p = some nj := by
  intro l
  induction l with
  | nil => intro h; simp [List.find?] at h
  | cons j t ih =>
    intro h
    cases hj : p j with
    | true => simp [replaceFirst, hj, List.find?, hnj]
    | false =>
      have h2 : (t.find? p).isSome := by simpa [List.find?, hj] using h
      simpa [replaceFirst, hj, List.find?] using ih h2

/-- Sample record used by concrete witnesses (the first seeded job of the
in-memory router, with numeric timestamps). -/
def jA : MemJob :=
  { id := 1
    title := "Full Stack Developer"
    company := "TechCorp"
    location := "San Francisco, CA"
    description := "Looking for an experienced full stack developer..."
    salary := some "$120,000 - $150,000"
    requirements := ["JavaScript", "React", "Node.js", "MongoDB"]
    jobType := "full-time"
    createdAt := 100
    updatedAt := 100 }

/-- A creation/update body that passes `validateJobData`. -/
def vb : MemBody :=
  { title := some "Backend Developer"
    company := some "NewTech"
    location := some "Austin, TX"
    description := some "We are looking for backend developers"
    salary := none
    requirements := none
    jobType := none
    bodyId := none
    bodyCreatedAt := none }

/-- C10: the read operations are side-effect free — the list handler and
the single-record fetch leave the stored collection (records, field
values and order) exactly as it was. -/
theorem mem_reads_pure (s : MemState) (q : MemQuery) (id : Nat) :
    (memStep (.list q) s).2 = s ∧ (memStep (.getOne id) s).2 = s := by
  refine ⟨rfl, ?_⟩
  show (memGet s id).2 = s
  unfold memGet
  cases findJobById s.jobs id <;> rfl

/-- C5: updating an id that no stored record carries never reports
success, leaves the store unchanged, and (when the body passes the
validation middleware, which runs first) answers with NotFound. -/
theorem mem_put_missing_id (s : MemState) (id : Nat) (b : MemBody) (now : Nat)
    (habs : ∀ j ∈ s.jobs, j.id ≠ id) :
    (memPut s id b now).1.success = false ∧ (memPut s id b now).2 = s ∧
    (validateJobData b = none → (memPut s id b now).1 = .notFound id) := by
  have hfind : findJobById s.jobs id = none := by
    rw [findJobById, List.find?_eq_none]
    intro j hj
    simpa using habs j hj
  cases hv : validateJobData b with
  | none =>
    refine ⟨?_, ?_, fun _ => ?_⟩ <;> simp [memPut, hv, hfind, MemResponse.success]
  | some e =>
    refine ⟨?_, ?_, fun h => ?_⟩
    · simp [memPut, hv, MemResponse.success]
    · simp [memPut, hv]
    · exact absurd h (Option.some_ne_none e)

/-- C9: a successful update keeps the record's `id` and `createdAt`: the
new stored record carries the old record's id and creation timestamp, and
the handler reads neither an `id` nor a `createdAt` value supplied in the
request body (changing those body fields changes nothing). -/
theorem mem_put_preserves_identity (s : MemState) (id : Nat) (b : MemBody)
    (now : Nat) (old : MemJob)
    (hold : findJobById s.jobs id = some old)
    (hv : validateJobData b = none) :
    ∃ nj, (memPut s id b now).1 = .jobOk 200 nj ∧
      nj.id = old.id ∧ nj.createdAt = old.createdAt ∧
      findJobById (memPut s id b now).2.jobs id = some nj ∧
      (∀ i c, memPut s id { b with bodyId := i, bodyCreatedAt := c } now =
        memPut s id b now) := by
  have hid : old.id = id := by
    have := List.find?_some hold
    simpa using this
  refine ⟨{ mkMemJob b id now with createdAt := old.createdAt }, ?_, ?_, rfl, ?_, ?_⟩
  · simp [memPut, hv, hold]
  · simp [mkMemJob, hid]
  · have hold2 : s.jobs.find? (fun j => j.id == id) = some old := hold
    have hsome : (s.jobs.find? (fun j => j.id == id)).isSome := by
      rw [hold2]; rfl
    have hrep := find?_replaceFirst (fun j => j.id == id)
      { mkMemJob b id now with createdAt := old.createdAt }
      (by simp [mkMemJob]) s.jobs hsome
    simpa [memPut, hv, hold2, findJobById] using hrep
  · intro i c
    rfl

/-- C5 witness: updating id 2 on a one-record store holding only id 1
fails with NotFound, reports no success, and leaves the store intact. -/
theorem mem_put_missing_id_witness :
    (memPut ⟨[jA], 2⟩ 2 vb 7).1.success = false ∧
    (memPut ⟨[jA], 2⟩ 2 vb 7).2 = ⟨[jA], 2⟩ ∧
    (memPut ⟨[jA], 2⟩ 2 vb 7).1 = .notFound 2 := by
  have h := mem_put_missing_id ⟨[jA], 2⟩ 2 vb 7 (by decide)
  exact ⟨h.1, h.2.1, h.2.2 (by decide)⟩

/-- C9 witness: a concrete successful update of the seeded record keeps
id 1 and the original creation timestamp 100. -/
theorem mem_put_preserves_identity_witness :
    ∃ nj, (memPut ⟨[jA], 2⟩ 1 vb 7).1 = .jobOk 200 nj ∧
      nj.id = jA.id ∧ nj.createdAt = jA.createdAt ∧
      findJobById (memPut ⟨[jA], 2⟩ 1 vb 7).2.jobs 1 = some nj ∧
      (∀ i c, memPut ⟨[jA], 2⟩ 1 { vb with bodyId := i, bodyCreatedAt := c } 7 =
        memPut ⟨[jA], 2⟩ 1 vb 7) :=
  mem_put_preserves_identity ⟨[jA], 2⟩ 1 vb 7 jA (by decide) (by decide)

/-- The per-field length bounds of `validateJobData`, by field name. -/
def boundBad (f s : String) : Bool :=
  match f with
  | "title" => s.length < 3 || s.length > 100
  | "company" => s.length < 2 || s.length > 50
  | "location" => s.length < 3 || s.length > 100
  | "description" => s.length < 10 || s.length > 1000
  | _ => false

/-- Spec-side reading of "violated field" for the create input (for
comparison with what `validateJobData` reports): a required field counts
as violated when it is missing/empty or its length bound fails. -/
def fieldViolated (b : MemBody) (f : String) : Bool :=
  !(strTruthy (fieldOf b f)) || boundBad f ((fieldOf b f).getD "")

/-- A body in which both `title` (too short for its 3–100 bound) and
`company` (too short for its 2–50 bound) are present but out of bounds. -/
def c2Body : MemBody :=
  { title := some "ab"
    company := some "x"
    location := some "NYC"
    description := some "a long enough description"
    salary := none
    requirements := none
    jobType := none
    bodyId := none
    bodyCreatedAt := none }

/-- C2 counterexample: on a body whose `title` and `company` are both out
of bounds, `validateJobData` names only `title`; the violated field
`company` is absent from the error, so the error does not list every
violated field. -/
theorem validateJobData_not_exhaustive :
    errNames (validateJobData c2Body) = ["title"] ∧
    fieldViolated c2Body "company" = true ∧
    "company" ∉ errNames (validateJobData c2Body) := by
  decide

lemma truthy_of_missing_nil (b : MemBody) (hm : missingOf b = []) :
    ∀ f ∈ requiredFields, strTruthy (fieldOf b f) = true := by
  intro f hf
  have h := List.filter_eq_nil_iff.mp hm f hf
  simpa using h

lemma validateJobData_chain (b : MemBody) (hm : missingOf b = []) :
    validateJobData b =
      (if boundBad "title" (b.title.getD "") then some (.badField "title")
       else if boundBad "company" (b.company.getD "") then some (.badField "company")
       else if boundBad "location" (b.location.getD "") then some (.badField "location")
       else if boundBad "description" (b.description.getD "") then some (.badField "description")
       else none) := by
  rw [validateJobData, hm]
  rfl

lemma fieldViolated_bound (b : MemBody) (hm : missingOf b = []) :
    ∀ f ∈ requiredFields, fieldViolated b f = boundBad f ((fieldOf b f).getD "") := by
  intro f hf
  rw [fieldViolated, truthy_of_missing_nil b hm f hf]
  simp

/-- C2 amended: when required fields are missing the error lists exactly
the missing fields; otherwise at most one out-of-bounds field is named
(the first violated in the order title, company, location, description);
every field the error names is genuinely violated, and validation
succeeds precisely when no required field is missing or out of bounds. -/
theorem validateJobData_amended (b : MemBody) :
    (missingOf b ≠ [] → validateJobData b = some (.missingFields (missingOf b))) ∧
    (validateJobData b = none ↔ ∀ f ∈ requiredFields, fieldViolated b f = false) ∧
    (∀ e, validateJobData b = some e → ∀ f ∈ errNames (some e), fieldViolated b f = true) ∧
    (missingOf b = [] → ∀ e, validateJobData b = some e → ∃ f, errNames (some e) = [f]) := by
  by_cases hm : missingOf b = []
  · have hchain := validateJobData_chain b hm
    have h1 := fieldViolated_bound b hm "title" (by simp [requiredFields])
    have h2 := fieldViolated_bound b hm "company" (by simp [requiredFields])
    have h3 := fieldViolated_bound b hm "location" (by simp [requiredFields])
    have h4 := fieldViolated_bound b hm "description" (by simp [requiredFields])
    simp only [fieldOf] at h1 h2 h3 h4
    refine ⟨fun h => absurd hm h, ?_, ?_, fun _ e he => ?_⟩
    · rw [hchain]
      cases hc1 : boundBad "title" (b.title.getD "") <;>
        cases hc2 : boundBad "company" (b.company.getD "") <;>
          cases hc3 : boundBad "location" (b.location.getD "") <;>
            cases hc4 : boundBad "description" (b.description.getD "") <;>
              simp_all [requiredFields]
    · intro e he f hf
      rw [hchain] at he
      split_ifs at he with hc1 hc2 hc3 hc4
      · cases he
        simp only [errNames, List.mem_singleton] at hf
        subst hf
        rw [h1]; exact hc1
      · cases he
        simp only [errNames, List.mem_singleton] at hf
        subst hf
        rw [h2]; exact hc2
      · cases he
        simp only [errNames, List.mem_singleton] at hf
        subst hf
        rw [h3]; exact hc3
      · cases he
        simp only [errNames, List.mem_singleton] at hf
        subst hf
        rw [h4]; exact hc4
    · rw [hchain] at he
      split_ifs at he with hc1 hc2 hc3 hc4
      · cases he; exact ⟨"title", rfl⟩
      · cases he; exact ⟨"company", rfl⟩
      · cases he; exact ⟨"location", rfl⟩
      · cases he; exact ⟨"description", rfl⟩
  · have hne : (missingOf b).isEmpty = false := by
      cases hE : (missingOf b).isEmpty
      · rfl
      · exact absurd (List.isEmpty_eq_true.mp hE) hm
    have hval : validateJobData b = some (.missingFields (missingOf b)) := by
      rw [validateJobData, hne]
      rfl
    have hviol : ∀ f ∈ missingOf b, fieldViolated b f = true := by
      intro f hf
      have hmem := List.mem_filter.mp hf
      rw [fieldViolated]
      simp [hmem.2]
    obtain ⟨f0, hf0⟩ := List.exists_mem_of_ne_nil _ hm
    refine ⟨fun _ => hval, ⟨?_, ?_⟩, ?_, fun h => absurd h hm⟩
    · intro h; rw [hval] at h; cases h
    · intro hall
      have hmem := List.mem_filter.mp hf0
      have hfalse := hall f0 hmem.1
      rw [hviol f0 hf0] at hfalse
      cases hfalse
    · intro e he f hf
      rw [hval] at he
      have he2 : e = .missingFields (missingOf b) := by
        injection he with h
        exact h.symm
      subst he2
      exact hviol f hf

/-- C2 amended witness: a body missing `title` and `description` gets a
ValidationError listing exactly those two fields. -/
theorem validateJobData_amended_witness :
    validateJobData
        { title := none, company := some "Acme", location := some "Austin",
          description := some "", salary := none, requirements := none,
          jobType := none, bodyId := none, bodyCreatedAt := none } =
      some (.missingFields ["title", "description"]) := by
  have h := (validateJobData_amended
    { title := none, company := some "Acme", location := some "Austin",
      description := some "", salary := none, requirements := none,
      jobType := none, bodyId := none, bodyCreatedAt := none }).1 (by decide)
  simpa using h

/-- A minimal record used to build large concrete stores. -/
def memJobN (i : Nat) : MemJob :=
  { id := i, title := "Job", company := "Acme", location := "Remote"
    description := "description", salary := none, requirements := []
    jobType := "full-time", createdAt := i, updatedAt := i }

/-- A store of 101 records with ids 0..100. -/
def bigStore : List MemJob := (List.range 101).map memJobN

/-- The filterless list query with `limit = 101`. -/
def q101 : MemQuery :=
  { company := none, location := none, jobType := none, page := 1, limit := 101 }

/-- C4 counterexample: the in-memory list handler applies no maximum to
`limit` — with `limit = 101` it succeeds and returns 101 items, more
than the claimed cap of 100. -/
theorem memList_no_limit_cap :
    (memStep (.list q101) ⟨bigStore, 102⟩).1.success = true ∧
    (memList bigStore q101).data.length = 101 := by
  constructor
  · rfl
  · rfl

/-- C4 amended: in the backend variant a validated list request has an
effective limit of at most 100 (over-large limits are rejected by
`queryValidationRules` with a ValidationError, not clamped), so a
successful backend list response carries at most 100 items. -/
theorem bList_at_most_100 (store : List BJob) (u : String) (q : BQuery)
    (h : bValidateQuery q = true) :
    (bList store u q).jobs.length ≤ 100 := by
  have hl : q.limit.getD 10 ≤ 100 := by
    cases hq : q.limit with
    | none => simp
    | some l =>
      rw [bValidateQuery, hq] at h
      simp only [Bool.and_eq_true, decide_eq_true_eq] at h
      exact h.1.1.1.1.1.2.2
  have hlen : (bList store u q).jobs.length ≤ q.limit.getD 10 := by
    simp only [bList]
    exact List.length_take_le _ _
  omega

/-- C4 amended witness: a validated query with `limit = 100` yields at
most 100 items on a concrete store. -/
theorem bList_at_most_100_witness :
    (bList [] "u1"
      { page := some 1, limit := some 100, status := none, company := none,
        location := none, search := none, sortBy := none, sortOrder := none }).jobs.length ≤ 100 :=
  bList_at_most_100 [] "u1"
    { page := some 1, limit := some 100, status := none, company := none,
      location := none, search := none, sortBy := none, sortOrder := none }
    (by decide)

/-- The application date of a successful backend create. -/
def bCreatedDate : BCreateResult → Option Nat
  | .created j _ => some j.applicationDate
  | _ => none

/-- The status of a successful backend create. -/
def bCreatedStatus : BCreateResult → Option String
  | .created j _ => some j.status
  | _ => none

/-- A creation body carrying an application date of 1001 (all schema
requirements satisfied: title, company and location present). -/
def c3Body : BBody :=
  { title := "Engineer", company := "Acme", location := some "Remote"
    salary := none, description := none, status := none
    applicationDate := some 1001, notes := none, jobUrl := none }

/-- C3 counterexample: at current time 1000, a body whose application
date 1001 lies strictly in the future passes the backend validation rules
(`applicationDate` is only checked to be a well-formed date) and is
persisted verbatim, so a stored record with `applicationDate > now`
exists; only the client-side form check would have rejected it. -/
theorem bCreate_accepts_future_date :
    bValidateBody c3Body = true ∧
    bCreatedDate (bCreate [] "u1" c3Body 1000 7) = some 1001 ∧
    jobFormDateOk 1001 1000 = false := by
  decide

/-- C3 amended: the future-date rule lives only in the client-side form
(`JobForm.validateForm` rejects any date after today); the server-side
create accepts a validated body with any application date, future
included, and persists that date unchanged. -/
theorem future_date_client_side_only (store : List BJob) (u : String)
    (b : BBody) (d now fid : Nat) (hd : now < d)
    (hb : bValidateBody b = true)
    (happ : b.applicationDate = some d)
    (hti : (jsTrim b.title == "") = false)
    (hco : (jsTrim b.company == "") = false)
    (hlo : (jsTrim (b.location.getD "") == "") = false)
    (hst : bModelStatuses.contains (jsOrDefault b.status "applied") = true) :
    jobFormDateOk d now = false ∧
    bCreatedDate (bCreate store u b now fid) = some d := by
  constructor
  · simp [jobFormDateOk, hd]
  · have hst2 : jsOrDefault b.status "applied" ∈ bModelStatuses := by
      simpa using hst
    simp [bCreate, hb, hti, hco, hlo, hst2, bCreatedDate, happ]

/-- C3 amended witness: the concrete future-dated body is rejected by the
form check but persisted by the backend create with its date intact. -/
theorem future_date_client_side_only_witness :
    jobFormDateOk 1001 1000 = false ∧
    bCreatedDate (bCreate [] "u1" c3Body 1000 7) = some 1001 :=
  future_date_client_side_only [] "u1" c3Body 1001 1000 7
    (by decide) (by decide) (by decide) (by decide) (by decide)
    (by decide) (by decide)

/-- The body of the C8 failing input: a status of `interview`, which the
route validator explicitly allows. -/
def c8Body : BBody :=
  { title := "Engineer", company := "Acme", location := some "Remote"
    salary := none, description := none, status := some "interview"
    applicationDate := none, notes := none, jobUrl := none }

/-- C8: the route validator's enumeration contains `interview` but the
Mongoose model enum spells it `interviewing`, so creating with status
`interview` passes validation yet `save` throws and the API answers 500
with nothing persisted — while an omitted status does default to
`applied`.  This contradicts the route's own validation message. -/
theorem interview_status_create_fails :
    "interview" ∈ bRouteStatuses ∧
    "interview" ∉ bModelStatuses ∧
    bValidateBody c8Body = true ∧
    bCreate [] "u1" c8Body 1000 7 = .serverErr ∧
    bCreatedStatus (bCreate [] "u1" { c8Body with status := none } 1000 7) =
      some "applied" := by
  decide

/-- The title of a fetched record. -/
def memRespTitle : MemResponse → Option String
  | .jobOk _ j => some j.title
  | _ => none

/-- A valid creation body whose title carries a trailing space. -/
def c6Body : MemBody :=
  { title := some "Engineer "
    company := some "Acme"
    location := some "Austin, TX"
    description := some "a long enough description"
    salary := none
    requirements := none
    jobType := none
    bodyId := none
    bodyCreatedAt := none }

/-- C6 counterexample: the create handler trims string fields, so
creating with title `"Engineer "` (valid: nine characters) and fetching
the new record by its id returns title `"Engineer"`, not the supplied
value — the round trip is not the identity on client-supplied fields. -/
theorem mem_roundtrip_trims :
    memRespTitle (memGet (memCreate ⟨[], 1⟩ c6Body 5).2 1).1 = some "Engineer" ∧
    c6Body.title = some "Engineer " ∧
    ("Engineer" : String) ≠ "Engineer " := by
  refine ⟨by decide, rfl, by decide⟩

/-- C6 amended: fetching right after creating returns the created record,
whose fields equal the client-supplied values after trimming surrounding
whitespace on the string fields — hence equal verbatim whenever the
supplied strings are already trimmed — and whose supplied non-empty
salary, requirements and type are kept verbatim. -/
theorem mem_roundtrip (s : MemState) (b : MemBody) (now : Nat)
    (hv : validateJobData b = none)
    (hfresh : ∀ j ∈ s.jobs, j.id ≠ s.nextId)
    (ht : jsTrim (b.title.getD "") = b.title.getD "")
    (hc : jsTrim (b.company.getD "") = b.company.getD "")
    (hl : jsTrim (b.location.getD "") = b.location.getD "")
    (hd : jsTrim (b.description.getD "") = b.description.getD "") :
    ∃ nj, (memCreate s b now).1 = .jobOk 201 nj ∧
      memGet (memCreate s b now).2 nj.id = (.jobOk 200 nj, (memCreate s b now).2) ∧
      nj.title = b.title.getD "" ∧ nj.company = b.company.getD "" ∧
      nj.location = b.location.getD "" ∧ nj.description = b.description.getD "" ∧
      (∀ v, b.salary = some v → v ≠ "" → nj.salary = some v) ∧
      (∀ rs, b.requirements = some rs → nj.requirements = rs) ∧
      (∀ t, b.jobType = some t → t ≠ "" → nj.jobType = t) := by
  refine ⟨mkMemJob b s.nextId now, ?_, ?_, ?_, ?_, ?_, ?_, ?_, ?_, ?_⟩
  · simp [memCreate, hv]
  · have hnjid : (mkMemJob b s.nextId now).id = s.nextId := rfl
    have hfind : findJobById (s.jobs ++ [mkMemJob b s.nextId now]) s.nextId =
        some (mkMemJob b s.nextId now) := by
      rw [findJobById, List.find?_append]
      have hnone : s.jobs.find? (fun j => j.id == s.nextId) = none := by
        rw [List.find?_eq_none]
        intro j hj
        simpa using hfresh j hj
      rw [hnone]
      simp [List.find?, mkMemJob]
    simp [memCreate, hv, memGet, hnjid, hfind]
  · simpa [mkMemJob] using ht
  · simpa [mkMemJob] using hc
  · simpa [mkMemJob] using hl
  · simpa [mkMemJob] using hd
  · intro v hvv hne
    simp [mkMemJob, jsOrNull, hvv, hne]
  · intro rs hrs
    simp [mkMemJob, hrs]
  · intro t htt hne
    simp [mkMemJob, jsOrDefault, htt, hne]

/-- C6 amended witness: a concrete create-then-fetch with already-trimmed
fields returns exactly the supplied values. -/
theorem mem_roundtrip_witness :
    ∃ nj, (memCreate ⟨[jA], 2⟩ vb 7).1 = .jobOk 201 nj ∧
      memGet (memCreate ⟨[jA], 2⟩ vb 7).2 nj.id =
        (.jobOk 200 nj, (memCreate ⟨[jA], 2⟩ vb 7).2) ∧
      nj.title = vb.title.getD "" ∧ nj.company = vb.company.getD "" ∧
      nj.location = vb.location.getD "" ∧ nj.description = vb.description.getD "" ∧
      (∀ v, vb.salary = some v → v ≠ "" → nj.salary = some v) ∧
      (∀ rs, vb.requirements = some rs → nj.requirements = rs) ∧
      (∀ t, vb.jobType = some t → t ≠ "" → nj.jobType = t) :=
  mem_roundtrip ⟨[jA], 2⟩ vb 7 (by decide) (by decide)
    (by decide) (by decide) (by decide) (by decide)

lemma ceilDiv_nil (l : Nat) (hl : 0 < l) : ceilDiv 0 l = 0 := by
  rw [ceilDiv]
  exact Nat.div_eq_of_lt (by omega)

lemma ceilDiv_succ (n l : Nat) (hl : 0 < l) (hn : 1 ≤ n) :
    ceilDiv n l = ceilDiv (n - l) l + 1 := by
  rcases Nat.lt_or_ge l n with h | h
  · have e1 : n + l - 1 = (n - l) + l - 1 + l := by omega
    rw [ceilDiv, ceilDiv, e1]
    exact Nat.add_div_right _ hl
  · have e0 : n - l = 0 := by omega
    have e1 : n + l - 1 = (n - 1) + l := by omega
    rw [ceilDiv, ceilDiv, e0, e1, Nat.add_div_right _ hl,
        Nat.div_eq_of_lt (show n - 1 < l by omega),
        Nat.div_eq_of_lt (show 0 + l - 1 < l by omega)]

lemma pages_flatten {α : Type} (l : Nat) (hl : 0 < l) :
    ∀ (n : Nat) (xs : List α), xs.length ≤ n →
      ((List.range (ceilDiv xs.length l)).map
        (fun i => (xs.drop (i * l)).take l)).flatten = xs := by
  intro n
  induction n with
  | zero =>
    intro xs hx
    have hnil : xs = [] := List.length_eq_zero.mp (Nat.le_zero.mp hx)
    subst hnil
    simp [ceilDiv_nil l hl]
  | succ n ih =>
    intro xs hx
    rcases Nat.eq_zero_or_pos xs.length with h0 | h1
    · have hnil : xs = [] := List.length_eq_zero.mp h0
      subst hnil
      simp [ceilDiv_nil l hl]
    · rw [ceilDiv_succ xs.length l hl h1, List.range_succ_eq_map]
      rw [List.map_cons, List.map_map, List.flatten_cons]
      have hzero : (xs.drop (0 * l)).take l = xs.take l := by
        rw [Nat.zero_mul, List.drop_zero]
      rw [hzero]
      have hfun : ((fun i => (xs.drop (i * l)).take l) ∘ (· + 1)) =
          fun i => ((xs.drop l).drop (i * l)).take l := by
        funext i
        simp only [Function.comp]
        rw [List.drop_drop]
        congr 2
        rw [Nat.succ_mul]
        omega
      rw [hfun]
      have hlen : (xs.drop l).length = xs.length - l := List.length_drop l xs
      have hle : (xs.drop l).length ≤ n := by omega
      have hih := ih (xs.drop l) hle
      rw [hlen] at hih
      rw [hih]
      exact List.take_append_drop l xs

lemma filter_stage_sublist (o : Option String) (p : String → MemJob → Bool)
    (js : List MemJob) :
    List.Sublist
      (match o with
       | none => js
       | some c => if c == "" then js else js.filter (p c)) js := by
  cases o with
  | none => exact List.Sublist.refl js
  | some c =>
    by_cases hc : c == ""
    · simp [hc]
    · simp only [hc, if_false, Bool.false_eq_true]
      exact List.filter_sublist js

lemma filteredJobs_sublist (jobs : List MemJob) (q : MemQuery) :
    List.Sublist (filteredJobs jobs q) jobs := by
  simp only [filteredJobs]
  exact ((filter_stage_sublist q.jobType (fun t j => j.jobType == t) _).trans
    ((filter_stage_sublist q.location (fun c j => containsCI j.location c) _).trans
      (filter_stage_sublist q.company (fun c j => containsCI j.company c) jobs)))

/-- The pages 1 through `totalPages` of the in-memory list response, for
a fixed filter and limit. -/
def pagesOf (jobs : List MemJob) (q : MemQuery) : List (List MemJob) :=
  (List.range (memList jobs q).totalPages).map
    (fun i => (memList jobs { q with page := i + 1 }).data)

/-- C1: for every store with distinct record ids, every filter and every
page `p ≥ 1` with page size `l ≥ 1`, the list response holds at most `l`
items and reports `page = p`; the pages 1..totalPages concatenate exactly
to the filtered collection, their ids are distinct (so the union carries
exactly `totalItems` distinct ids) and no id occurs on two different
pages. -/
theorem memList_pagination (jobs : List MemJob) (q : MemQuery)
    (hp : 1 ≤ q.page) (hl : 1 ≤ q.limit)
    (hids : (jobs.map MemJob.id).Nodup) :
    (memList jobs q).data.length ≤ q.limit ∧
    (memList jobs q).page = q.page ∧
    (pagesOf jobs q).flatten = filteredJobs jobs q ∧
    (pagesOf jobs q).flatten.length = (memList jobs q).total ∧
    ((pagesOf jobs q).flatten.map MemJob.id).Nodup ∧
    List.Pairwise (fun a b => ∀ x ∈ a, ∀ y ∈ b, x.id ≠ y.id) (pagesOf jobs q) := by
  have hflat : (pagesOf jobs q).flatten = filteredJobs jobs q := by
    have hpage : ∀ i : Nat,
        (memList jobs { q with page := i + 1 }).data =
          ((filteredJobs jobs q).drop (i * q.limit)).take q.limit := by
      intro i
      rfl
    have hfun : (fun i => (memList jobs { q with page := i + 1 }).data) =
        fun i => ((filteredJobs jobs q).drop (i * q.limit)).take q.limit :=
      funext hpage
    rw [pagesOf, hfun]
    exact pages_flatten q.limit hl (filteredJobs jobs q).length _ (Nat.le_refl _)
  have hnodup : ((pagesOf jobs q).flatten.map MemJob.id).Nodup := by
    rw [hflat]
    exact hids.sublist ((filteredJobs_sublist jobs q).map MemJob.id)
  refine ⟨List.length_take_le _ _, rfl, hflat, by rw [hflat]; rfl, hnodup, ?_⟩
  have h1 : ((pagesOf jobs q).map (List.map MemJob.id)).flatten.Nodup := by
    rw [← List.map_flatten]
    exact hnodup
  have h2 := (List.nodup_flatten.mp h1).2
  have h3 := List.pairwise_map.mp h2
  refine h3.imp ?_
  intro a b hab x hx y hy hxy
  exact hab (List.mem_map_of_mem MemJob.id hx)
    (hxy ▸ List.mem_map_of_mem MemJob.id hy)

/-- The query used by the C1 witness: no filters, page 1, limit 1. -/
def qW : MemQuery :=
  { company := none, location := none, jobType := none, page := 1, limit := 1 }

/-- C1 witness: the pagination properties evaluated on a concrete
one-record store with page 1 and limit 1. -/
theorem memList_pagination_witness :
    (memList [jA] qW).data.length ≤ 1 ∧
    (memList [jA] qW).page = 1 ∧
    (pagesOf [jA] qW).flatten = filteredJobs [jA] qW ∧
    (pagesOf [jA] qW).flatten.length = (memList [jA] qW).total ∧
    ((pagesOf [jA] qW).flatten.map MemJob.id).Nodup ∧
    List.Pairwise (fun a b => ∀ x ∈ a, ∀ y ∈ b, x.id ≠ y.id) (pagesOf [jA] qW) :=
  memList_pagination [jA] qW (by decide) (by decide) (by decide)

lemma insertLe_perm (le : BJob → BJob → Bool) (a : BJob) (l : List BJob) :
    List.Perm (insertLe le a l) (a :: l) := by
  induction l with
  | nil => exact List.Perm.refl _
  | cons b t ih =>
    by_cases h : le a b
    · simp only [insertLe, h, if_true]
      exact List.Perm.refl _
    · simp only [insertLe, h, if_false, Bool.false_eq_true]
      exact (ih.cons b).trans (List.Perm.swap a b t)

lemma sortLe_perm (le : BJob → BJob → Bool) (l : List BJob) :
    List.Perm (sortLe le l) l := by
  induction l with
  | nil => exact List.Perm.refl _
  | cons a t ih => exact (insertLe_perm le a (sortLe le t)).trans (ih.cons a)

/-- C7: a backend listing filtered by a status `s` returns only records
whose status equals `s` exactly (the backend is the variant carrying a
status field; the conclusion is independent of the other filter
clauses); and a listing of the in-memory variant filtered by a company
string `f` (page 1, limit at least the store size) returns exactly the
records whose company contains `f` as a case-insensitive substring —
`includes` on lower-cased strings, literal for every `f`.  The backend's
`company` filter is `$regex`/`i` on the raw parameter and coincides with
this substring semantics only for patterns free of regex
metacharacters. -/
theorem bList_filter_semantics :
    (∀ (store : List BJob) (u : String) (q : BQuery) (s : String),
      q.status = some s → s ≠ "" →
      ∀ j ∈ (bList store u q).jobs, j.status = s) ∧
    (∀ (jobs : List MemJob) (f : String) (l : Nat),
      f ≠ "" → jobs.length ≤ l →
      (memList jobs
        { company := some f, location := none, jobType := none,
          page := 1, limit := l }).data =
        jobs.filter (fun j => containsCI j.company f)) := by
  constructor
  · intro store u q s hqs hs j hj
    have hj1 : j ∈ sortLe (bLe (q.sortBy.getD "createdAt") (q.sortOrder.getD "desc"))
        (store.filter (bMatches u q)) := by
      have := List.take_subset _ _ hj
      exact List.drop_subset _ _ this
    have hj2 : j ∈ store.filter (bMatches u q) :=
      (sortLe_perm _ _).mem_iff.mp hj1
    have hmatch : bMatches u q j = true := List.of_mem_filter hj2
    rw [bMatches, hqs] at hmatch
    simp only [Bool.and_eq_true] at hmatch
    have hstat := hmatch.1.1.1.2
    rw [if_neg (by simpa using hs)] at hstat
    exact eq_of_beq hstat
  · intro jobs f l hf hlen
    have hff : (f == "") = false := by simpa using hf
    have hfj : filteredJobs jobs
        { company := some f, location := none, jobType := none,
          page := 1, limit := l } =
        jobs.filter (fun j => containsCI j.company f) := by
      simp [filteredJobs, hff]
    show ((filteredJobs jobs
        { company := some f, location := none, jobType := none,
          page := 1, limit := l }).drop ((1 - 1) * l)).take l =
      jobs.filter (fun j => containsCI j.company f)
    rw [hfj, show (1 - 1) * l = 0 by omega, List.drop_zero]
    exact List.take_of_length_le
      (Nat.le_trans (List.length_filter_le _ _) hlen)

/-- A concrete backend record with status `offer`. -/
def bJob1 : BJob :=
  { id := 1, userId := "u1", title := "Full Stack Developer",
    company := "TechCorp", location := "San Francisco", description := "dev work",
    status := "offer", salary := none, applicationDate := 10, notes := "",
    jobUrl := "", createdAt := 10, updatedAt := 10 }

/-- A concrete backend record with status `applied`. -/
def bJob2 : BJob :=
  { id := 2, userId := "u1", title := "Frontend Developer",
    company := "StartupXYZ", location := "Remote", description := "ui work",
    status := "applied", salary := none, applicationDate := 11, notes := "",
    jobUrl := "", createdAt := 11, updatedAt := 11 }

/-- The status-filter query of the C7 witness. -/
def qStatusOffer : BQuery :=
  { page := none, limit := none, status := some "offer", company := none,
    location := none, search := none, sortBy := none, sortOrder := none }

/-- A second in-memory record, with company `StartupXYZ`. -/
def jB : MemJob :=
  { id := 2
    title := "Frontend Developer"
    company := "StartupXYZ"
    location := "Remote"
    description := "Join our dynamic team as a frontend developer..."
    salary := some "$90,000 - $110,000"
    requirements := ["React", "TypeScript", "CSS3", "HTML5"]
    jobType := "full-time"
    createdAt := 101
    updatedAt := 101 }

/-- The company-filter query of the C7 witness. -/
def qCompanyTech : MemQuery :=
  { company := some "tech", location := none, jobType := none,
    page := 1, limit := 2 }

/-- C7 witness: on concrete two-record stores, the `status=offer` page
holds only `offer` records, and the `company=tech` page is exactly the
records whose company contains `tech` case-insensitively. -/
theorem bList_filter_semantics_witness :
    (∀ j ∈ (bList [bJob1, bJob2] "u1" qStatusOffer).jobs, j.status = "offer") ∧
    (memList [jA, jB] qCompanyTech).data =
      [jA, jB].filter (fun j => containsCI j.company "tech") :=
  ⟨bList_filter_semantics.1 [bJob1, bJob2] "u1" qStatusOffer "offer" rfl
      (by decide),
    bList_filter_semantics.2 [jA, jB] "tech" 2 (by decide) (by decide)⟩
